import Mathlib

/-!
# LazyManager metadata-synchronization engine: a shallow embedding

This file embeds the core of the LazyManager repository browser
(`src/lazymanager/git_utils.py`, `config.py`, `repository.py`, `app.py`,
`models.py`) in Lean and proves properties of the probe protocol, the
cache store, the scanner, the refresh orchestrator and the debounced
change watcher.

External command invocations (`subprocess.run`) are modelled by an
explicit outcome per invocation: either the process completed with an
exit code, stdout and stderr, or the call raised `TimeoutExpired`, or it
raised some other exception.  Probes are then pure functions of those
outcomes.  The error-reporting callback is modelled by returning the
list of messages passed to it, in order.
-/

namespace LazyManager

/-- Modelled from the spec: `ProbeResult<T>` (`GitResult` in the code; the
dataclass declaration is absent from `models.py` though `git_utils.py`
constructs it with keyword arguments `value=`, `has_error=`).
`{value: optional T, hasError: bool}`. -/
structure GitResult (α : Type) where
  value : Option α
  has_error : Bool
deriving Repr, DecidableEq

/-- Modelled from the spec: `AheadBehindInfo` (declaration absent from
`models.py`; `git_utils.py` constructs it with keyword arguments `ahead=`,
`behind=`, `has_upstream=`).  `{ahead: optional int, behind: optional int,
hasUpstream: tri-state}`. -/
structure AheadBehindInfo where
  ahead : Option Int
  behind : Option Int
  has_upstream : Option Bool
deriving Repr, DecidableEq

/-- Outcome of one `subprocess.run` invocation: completion with exit code,
stdout and stderr text, or a `TimeoutExpired`, or another exception
(carrying `str(e)`). -/
inductive ProcOutcome where
  | completed (returncode : Int) (stdout : String) (stderr : String)
  | timeout
  | exc (msg : String)
deriving Repr, DecidableEq

/-- Python's `str.strip()`: drop whitespace from both ends. -/
def pystrip (s : String) : String :=
  String.mk (((s.data.dropWhile Char.isWhitespace).reverse.dropWhile
    Char.isWhitespace).reverse)

/-- Helper for `pysplit`: accumulate the current word (reversed) while
scanning the character list. -/
def splitWsAux : List Char → List Char → List (List Char)
  | [], acc => match acc with
    | [] => []
    | _ => [acc.reverse]
  | c :: cs, acc =>
    if Char.isWhitespace c then
      match acc with
      | [] => splitWsAux cs []
      | _ => acc.reverse :: splitWsAux cs []
    else splitWsAux cs (c :: acc)

/-- Python's `str.split()` with no argument: split on whitespace runs,
dropping empty pieces. -/
def pysplit (s : String) : List String :=
  (splitWsAux s.data []).map String.mk

/-- Digit-string value, `none` unless non-empty and all decimal digits. -/
def digitsToNat (l : List Char) : Option Nat :=
  if l ≠ [] ∧ l.all Char.isDigit then
    some (l.foldl (fun n c => 10 * n + (c.toNat - 48)) 0)
  else none

/-- Python's `int()` constructor on a string: optional surrounding
whitespace, an optional sign, then decimal digits; anything else raises
`ValueError` (`none` here). -/
def pyint (s : String) : Option Int :=
  match (pystrip s).data with
  | '-' :: rest => (digitsToNat rest).map (fun n => -(n : Int))
  | '+' :: rest => (digitsToNat rest).map (fun n => (n : Int))
  | l => (digitsToNat l).map (fun n => (n : Int))

/-- A simple executable timestamp codec used to instantiate the abstract
`datetime` type in concrete witnesses: a timestamp is a natural number,
rendered and parsed as its decimal digits. -/
def pyNat (s : String) : Option Nat :=
  digitsToNat s.data

/-- Python's `str.startswith`. -/
def pyStartsWith (s pre : String) : Bool :=
  s.data.take pre.data.length == pre.data

/-- Python's slice `s[n:]`. -/
def pydrop (s : String) (n : Nat) : String :=
  String.mk (s.data.drop n)

/-- Embedding of `git_utils.get_last_commit_date` (git_utils.py lines 11-32), as a
function of the `git log -1 --format=%cI` outcome.  `fromisoformat`
models `datetime.fromisoformat`; a parse failure raises and is caught by
the generic handler.  Returns the `GitResult` and the list of messages
passed to `error_callback`. -/
def get_last_commit_date (DT : Type) (fromisoformat : String → Option DT)
    (repoName : String) (proc : ProcOutcome) : GitResult DT × List String :=
  match proc with
  | .completed rc out err =>
    if rc = 0 ∧ pystrip out ≠ "" then
      match fromisoformat (pystrip out) with
      | some d => (⟨some d, false⟩, [])
      | none => (⟨none, true⟩, [])
    else if rc ≠ 0 then
      (⟨none, true⟩, ["git log failed in " ++ repoName ++ ": " ++ pystrip err])
    else
      (⟨none, false⟩, [])
  | .timeout => (⟨none, true⟩, [])
  | .exc _ => (⟨none, true⟩, [])

/-- Embedding of `git_utils.get_git_branch` (git_utils.py lines 35-56), as a function
of the `git rev-parse --abbrev-ref HEAD` outcome. -/
def get_git_branch (repoName : String) (proc : ProcOutcome) :
    GitResult String × List String :=
  match proc with
  | .completed rc out err =>
    if rc = 0 ∧ pystrip out ≠ "" then
      (⟨some (pystrip out), false⟩, [])
    else if rc ≠ 0 then
      (⟨none, true⟩, ["git rev-parse failed in " ++ repoName ++ ": " ++ pystrip err])
    else
      (⟨none, false⟩, [])
  | .timeout => (⟨none, true⟩, [])
  | .exc _ => (⟨none, true⟩, [])

/-- Embedding of `git_utils.get_git_status` (git_utils.py lines 59-82), as a function
of the `git status --porcelain` outcome. -/
def get_git_status (repoName : String) (proc : ProcOutcome) :
    GitResult String × List String :=
  match proc with
  | .completed rc out err =>
    if rc = 0 then
      if pystrip out = "" then (⟨some "clean", false⟩, [])
      else (⟨some "modified", false⟩, [])
    else
      (⟨none, true⟩, ["git status failed in " ++ repoName ++ ": " ++ pystrip err])
  | .timeout => (⟨none, true⟩, [])
  | .exc _ => (⟨none, true⟩, [])

/-- The five external invocations `get_git_ahead_behind` may issue, in
program order: branch resolution, `branch.<b>.remote`, `branch.<b>.merge`,
`git rev-parse --verify <upstream>`, `git rev-list --left-right --count`. -/
structure AheadBehindEnv where
  branch : ProcOutcome
  remote : ProcOutcome
  merge : ProcOutcome
  verify : ProcOutcome
  revlist : ProcOutcome
deriving Repr, DecidableEq

/-- The `merge[11:]` stripping of a literal leading `refs/heads/`
(git_utils.py lines 116-117). -/
def stripHeads (m : String) : String :=
  if pyStartsWith m "refs/heads/" then pydrop m 11 else m

/-- The soft-absence value all three no-upstream paths of
`get_git_ahead_behind` return: `AheadBehindInfo(None, None, False)`
wrapped with `has_error=False`. -/
def noUpstream : GitResult AheadBehindInfo :=
  ⟨some ⟨none, none, some false⟩, false⟩

/-- Embedding of `git_utils.get_git_ahead_behind` (git_utils.py lines 85-161).
Sequential steps; a later invocation is only reached if the earlier ones
completed.  A `TimeoutExpired` or other exception from any of the four
direct invocations lands in this function's own handlers, which invoke
the callback; the branch step runs inside `get_git_branch`, whose own
handlers swallow its timeout/exception without a callback. -/
def get_git_ahead_behind (repoName : String) (env : AheadBehindEnv) :
    GitResult AheadBehindInfo × List String :=
  let br := get_git_branch repoName env.branch
  if br.1.has_error = true ∨ br.1.value.getD "" = "" then
    (noUpstream, br.2)
  else
    let branch := br.1.value.getD ""
    match env.remote with
    | .timeout => (⟨none, true⟩, br.2 ++ ["git ahead/behind timeout in " ++ repoName])
    | .exc em => (⟨none, true⟩, br.2 ++ ["git ahead/behind exception in " ++ repoName ++ ": " ++ em])
    | .completed rr ro _ =>
      match env.merge with
      | .timeout => (⟨none, true⟩, br.2 ++ ["git ahead/behind timeout in " ++ repoName])
      | .exc em => (⟨none, true⟩, br.2 ++ ["git ahead/behind exception in " ++ repoName ++ ": " ++ em])
      | .completed mr mo _ =>
        if rr ≠ 0 ∨ mr ≠ 0 then
          (noUpstream, br.2 ++ ["No upstream branch configured for " ++ branch ++ " in " ++ repoName])
        else
          let upstream := pystrip ro ++ "/" ++ stripHeads (pystrip mo)
          match env.verify with
          | .timeout => (⟨none, true⟩, br.2 ++ ["git ahead/behind timeout in " ++ repoName])
          | .exc em => (⟨none, true⟩, br.2 ++ ["git ahead/behind exception in " ++ repoName ++ ": " ++ em])
          | .completed vr _ ve =>
            if vr ≠ 0 then
              (noUpstream, br.2 ++ ["Upstream branch " ++ upstream ++ " not found in " ++ repoName ++ ": " ++ pystrip ve])
            else
              match env.revlist with
              | .timeout => (⟨none, true⟩, br.2 ++ ["git ahead/behind timeout in " ++ repoName])
              | .exc em => (⟨none, true⟩, br.2 ++ ["git ahead/behind exception in " ++ repoName ++ ": " ++ em])
              | .completed lr lo le =>
                if lr = 0 ∧ pystrip lo ≠ "" then
                  match pysplit (pystrip lo) with
                  | [a, b] =>
                    match pyint a, pyint b with
                    | some x, some y =>
                      (⟨some ⟨some x, some y, some true⟩, false⟩, br.2)
                    | _, _ =>
                      (⟨none, true⟩, br.2 ++ ["git ahead/behind exception in " ++ repoName ++ ": invalid literal for int"])
                  | _ => (⟨none, true⟩, br.2)
                else if lr ≠ 0 then
                  (⟨none, true⟩, br.2 ++ ["git rev-list failed in " ++ repoName ++ ": " ++ pystrip le])
                else
                  (⟨none, true⟩, br.2)

/-! ## Cache store (`config.py`) -/

/-- One in-memory metadata-cache entry: the per-repository dictionary
`{branch, status, ahead, behind, has_upstream, last_commit}` built by
`app.save_repo_to_cache` and consumed by `config.save_metadata_cache`.
`DT` stands for `datetime.datetime`. -/
structure CacheEntry (DT : Type) where
  branch : Option String
  status : Option String
  ahead : Option Int
  behind : Option Int
  has_upstream : Option Bool
  last_commit : Option DT
deriving Repr, DecidableEq

/-- One on-disk metadata-cache entry as serialized by
`config.save_metadata_cache` (config.py lines 134-146): identical fields
except that `last_commit` is an ISO-8601 string or `null`. -/
structure SerializedEntry where
  branch : Option String
  status : Option String
  ahead : Option Int
  behind : Option Int
  has_upstream : Option Bool
  last_commit : Option String
deriving Repr, DecidableEq

/-- The serialization of one entry inside `config.save_metadata_cache`:
every field is copied, `last_commit` becomes
`metadata['last_commit'].isoformat() if metadata.get('last_commit') else
None` (a datetime object is always truthy). -/
def serializeEntry (DT : Type) (isoformat : DT → String) (e : CacheEntry DT) :
    SerializedEntry :=
  { branch := e.branch
    status := e.status
    ahead := e.ahead
    behind := e.behind
    has_upstream := e.has_upstream
    last_commit := match e.last_commit with
      | some d => some (isoformat d)
      | none => none }

/-- The per-entry work of `config.load_metadata_cache` (config.py lines
111-119): every field is read back with `.get`, and `last_commit` is
`datetime.fromisoformat(metadata['last_commit']) if
metadata.get('last_commit') else None` — an absent key or a falsy (empty)
string yields `None`, and a parse failure raises out of the whole loader.
`none` here models that raise. -/
def loadEntry (DT : Type) (fromisoformat : String → Option DT)
    (s : SerializedEntry) : Option (CacheEntry DT) :=
  match s.last_commit with
  | none =>
    some { branch := s.branch, status := s.status, ahead := s.ahead,
           behind := s.behind, has_upstream := s.has_upstream, last_commit := none }
  | some str =>
    if str = "" then
      some { branch := s.branch, status := s.status, ahead := s.ahead,
             behind := s.behind, has_upstream := s.has_upstream, last_commit := none }
    else
      match fromisoformat str with
      | some d =>
        some { branch := s.branch, status := s.status, ahead := s.ahead,
               behind := s.behind, has_upstream := s.has_upstream, last_commit := some d }
      | none => none

/-- Embedding of `config.save_metadata_cache` (config.py lines 134-146) up to the JSON
document it hands to `atomic_write_json`: the cache mapping with each
entry serialized.  The mapping is modelled as an association list keyed
by repository path. -/
def save_metadata_cache (DT : Type) (isoformat : DT → String)
    (cache : List (String × CacheEntry DT)) : List (String × SerializedEntry) :=
  cache.map (fun kv => (kv.1, serializeEntry DT isoformat kv.2))

/-- The loop of `config.load_metadata_cache`: deserialize each entry in
turn; `none` signals the exception that aborts the whole load. -/
def loadEntries (DT : Type) (fromisoformat : String → Option DT) :
    List (String × SerializedEntry) → Option (List (String × CacheEntry DT))
  | [] => some []
  | kv :: rest =>
    match loadEntry DT fromisoformat kv.2, loadEntries DT fromisoformat rest with
    | some e, some r => some ((kv.1, e) :: r)
    | _, _ => none

/-- Embedding of `config.load_metadata_cache` (config.py lines 102-131) applied to a
parsed JSON document: each entry is deserialized in turn; any exception
(a `fromisoformat` failure) makes the whole loader return the empty
mapping. -/
def load_metadata_cache (DT : Type) (fromisoformat : String → Option DT)
    (doc : List (String × SerializedEntry)) : List (String × CacheEntry DT) :=
  match loadEntries DT fromisoformat doc with
  | some r => r
  | none => []

/-! ## Atomic persistence (`config.atomic_write_json`) -/

/-- Logical content of the temporary file while `atomic_write_json` runs:
just created and empty, abandoned half-written mid-`json.dump`, or the
complete serialized document. -/
inductive TempContent (Doc : Type) where
  | empty
  | halfWritten
  | complete (d : Doc)
deriving Repr, DecidableEq

/-- The two paths `atomic_write_json` touches: the destination document
(if any) and the sibling temporary file (if present). -/
structure FileSystem (Doc : Type) where
  dest : Option Doc
  temp : Option (TempContent Doc)
deriving Repr, DecidableEq

/-- Where, if anywhere, a run of `atomic_write_json` fails: at
`open(temp_path, 'w')`, during `json.dump`, at `f.flush`, at
`os.fsync`, or at `os.replace`. -/
inductive FailPoint where
  | atOpen
  | atWrite
  | atFlush
  | atSync
  | atReplace
  | noFail
deriving Repr, DecidableEq

/-- The exception handler of `atomic_write_json` (config.py lines 19-22):
`if temp_path.exists(): temp_path.unlink()` then re-`raise`. -/
def cleanupTemp (Doc : Type) (fs : FileSystem Doc) : FileSystem Doc :=
  { fs with temp := none }

/-- Embedding of `config.atomic_write_json` (config.py lines 10-22) as a small-step
run: write the document to the sibling temporary path, flush, fsync,
then `os.replace` it over the destination.  Returns the sequence of
intermediate filesystem states (the initial state first, the final state
last) and whether the call raised.  A failure at any point unlinks the
temporary file and re-raises; only `os.replace` ever changes `dest`. -/
def atomic_write_json (Doc : Type) (fs : FileSystem Doc) (data : Doc)
    (fp : FailPoint) : List (FileSystem Doc) × FileSystem Doc × Bool :=
  match fp with
  | .atOpen =>
    ([fs], cleanupTemp Doc fs, true)
  | .atWrite =>
    let s1 : FileSystem Doc := { fs with temp := some .empty }
    let s2 : FileSystem Doc := { fs with temp := some .halfWritten }
    ([fs, s1, s2], cleanupTemp Doc s2, true)
  | .atFlush =>
    let s1 : FileSystem Doc := { fs with temp := some .empty }
    let s2 : FileSystem Doc := { fs with temp := some (.complete data) }
    ([fs, s1, s2], cleanupTemp Doc s2, true)
  | .atSync =>
    let s1 : FileSystem Doc := { fs with temp := some .empty }
    let s2 : FileSystem Doc := { fs with temp := some (.complete data) }
    ([fs, s1, s2], cleanupTemp Doc s2, true)
  | .atReplace =>
    let s1 : FileSystem Doc := { fs with temp := some .empty }
    let s2 : FileSystem Doc := { fs with temp := some (.complete data) }
    ([fs, s1, s2], cleanupTemp Doc s2, true)
  | .noFail =>
    let s1 : FileSystem Doc := { fs with temp := some .empty }
    let s2 : FileSystem Doc := { fs with temp := some (.complete data) }
    let s3 : FileSystem Doc := { dest := some data, temp := none }
    ([fs, s1, s2, s3], s3, false)

/-! ## Data model (`models.py`) and scanner (`repository.py`) -/

/-- Embedding of `models.Repository` (models.py lines 6-18).  `needs_refresh` is not a
declared dataclass field: it is an attribute assigned dynamically by
`GitChangeHandler._flag_needs_refresh` and read by `app.py`; it is
carried here as a field defaulting to `false`. -/
structure Repository (DT : Type) where
  path : String
  name : String
  last_accessed : Option DT := none
  last_commit : Option DT := none
  branch : Option String := none
  status : Option String := none
  ahead : Option Int := none
  behind : Option Int := none
  is_loading : Bool := false
  has_error : Bool := false
  has_upstream : Option Bool := none
  needs_refresh : Bool := false
deriving Repr, DecidableEq

/-- What `find_git_repos` learns about one immediate child of the base
directory: a per-entry exception (permission or otherwise), not a
directory, a directory without a `.git` entry, a directory whose `.git`
is a plain file (worktree/submodule), or a directory whose `.git` is a
directory. -/
inductive EntryStatus where
  | permError
  | notDir
  | noGit
  | gitFile
  | gitDir
deriving Repr, DecidableEq

/-- One immediate child of the base directory as seen by the scanner. -/
structure DirEntry where
  path : String
  name : String
  status : EntryStatus
deriving Repr, DecidableEq

/-- The base directory as seen by `find_git_repos`: missing, listed
successfully, or raising after yielding a prefix of its entries (the
exception from `iterdir` is caught after the loop body, so entries
already processed are kept; an immediate listing failure is
`failsAfter []`). -/
inductive BaseDir where
  | missing
  | entries (l : List DirEntry)
  | failsAfter (l : List DirEntry)
deriving Repr, DecidableEq

/-- The `Repository(...)` construction inside `find_git_repos`
(repository.py lines 31-42): seed from the access history and the
metadata cache when an entry exists for the child's path. -/
def seedRepo (DT : Type) (access_history : String → Option DT)
    (metadata_cache : String → Option (CacheEntry DT)) (e : DirEntry) :
    Repository DT :=
  let cached := metadata_cache e.path
  { path := e.path
    name := e.name
    last_accessed := access_history e.path
    last_commit := (cached.map (fun c => c.last_commit)).getD none
    branch := (cached.map (fun c => c.branch)).getD none
    status := (cached.map (fun c => c.status)).getD none
    ahead := (cached.map (fun c => c.ahead)).getD none
    behind := (cached.map (fun c => c.behind)).getD none
    has_upstream := (cached.map (fun c => c.has_upstream)).getD none }

/-- The per-entry body of the scan loop: only a directory whose `.git`
is itself a directory yields a repository; every other case — including
a per-entry exception — is skipped. -/
def scanEntry (DT : Type) (access_history : String → Option DT)
    (metadata_cache : String → Option (CacheEntry DT)) (e : DirEntry) :
    Option (Repository DT) :=
  match e.status with
  | .gitDir => some (seedRepo DT access_history metadata_cache e)
  | _ => none

/-- Embedding of `repository.find_git_repos` (repository.py lines 9-53): a missing
base yields `[]`; otherwise each listed child is processed in order with
per-entry failures skipped, and an exception from the listing itself is
caught after the loop, returning the repositories accumulated so far. -/
def find_git_repos (DT : Type) (base : BaseDir)
    (access_history : String → Option DT)
    (metadata_cache : String → Option (CacheEntry DT)) : List (Repository DT) :=
  match base with
  | .missing => []
  | .entries l => l.filterMap (scanEntry DT access_history metadata_cache)
  | .failsAfter l => l.filterMap (scanEntry DT access_history metadata_cache)

/-! ## Sync engine (`app.py`) -/

/-- The four probe results of one repository's bundle, as consumed by
`app.fetch_repo_metadata`. -/
structure ProbeBundle (DT : Type) where
  commit : GitResult DT
  branch : GitResult String
  status : GitResult String
  aheadBehind : GitResult AheadBehindInfo
deriving Repr, DecidableEq

/-- Embedding of `app.fetch_repo_metadata` (app.py lines 193-219): reset `has_error`,
overwrite every metadata field with the fresh probe's value, OR the four
error flags.  `if ahead_behind_result.value:` tests `None`-ness (an
`AheadBehindInfo` instance is always truthy). -/
def fetch_repo_metadata (DT : Type) (repo : Repository DT) (b : ProbeBundle DT) :
    Repository DT :=
  { repo with
    last_commit := b.commit.value
    branch := b.branch.value
    status := b.status.value
    ahead := match b.aheadBehind.value with
      | some i => i.ahead
      | none => none
    behind := match b.aheadBehind.value with
      | some i => i.behind
      | none => none
    has_upstream := match b.aheadBehind.value with
      | some i => i.has_upstream
      | none => none
    has_error := b.commit.has_error || b.branch.has_error ||
      b.status.has_error || b.aheadBehind.has_error }

/-- Python dict assignment `d[k] = v` on an association list: replace the
value of an existing key, or append a new binding. -/
def dictInsert (α : Type) (l : List (String × α)) (k : String) (v : α) :
    List (String × α) :=
  if l.any (fun kv => kv.1 == k) then
    l.map (fun kv => if kv.1 == k then (k, v) else kv)
  else
    l ++ [(k, v)]

/-- Python dict read `d[k]` / `d.get(k)` on an association list. -/
def dictGet (α : Type) (l : List (String × α)) (k : String) : Option α :=
  (l.find? (fun kv => kv.1 == k)).map Prod.snd

/-- Embedding of `app.save_repo_to_cache` (app.py lines 221-229): store the
repository's current six metadata fields into the in-memory metadata
cache under its path. -/
def save_repo_to_cache (DT : Type) (cache : List (String × CacheEntry DT))
    (repo : Repository DT) : List (String × CacheEntry DT) :=
  dictInsert (CacheEntry DT) cache repo.path
    { branch := repo.branch
      status := repo.status
      ahead := repo.ahead
      behind := repo.behind
      has_upstream := repo.has_upstream
      last_commit := repo.last_commit }

/-- Outcome of one repository's probe bundle dispatched with
`asyncio.to_thread(self.fetch_repo_metadata, repo)`: either the bundle
completed with four probe results, or the task raised an unexpected
fault (collected by `asyncio.gather(..., return_exceptions=True)`,
leaving the repository as it was). -/
inductive BundleOutcome (DT : Type) where
  | ok (b : ProbeBundle DT)
  | fault
deriving Repr, DecidableEq

/-- Embedding of `app.refresh_repos_metadata` (app.py lines 247-259), the targeted
refresh: gather all bundles with `return_exceptions=True` (so a faulted
bundle is collected, not re-raised), then for every repository in the
subset set `needs_refresh = False` and write it to the in-memory cache.
Returns the updated repositories and cache (the subsequent
`save_metadata_cache` and repaint are outside this function's state). -/
def refresh_repos_metadata (DT : Type)
    (repos : List (Repository DT × BundleOutcome DT))
    (cache : List (String × CacheEntry DT)) :
    List (Repository DT) × List (String × CacheEntry DT) :=
  let fetched := repos.map (fun rb =>
    match rb.2 with
    | .ok b => fetch_repo_metadata DT rb.1 b
    | .fault => rb.1)
  let cleared := fetched.map (fun r => { r with needs_refresh := false })
  (cleared, cleared.foldl (save_repo_to_cache DT) cache)

/-! ## Change watcher (`app.GitChangeHandler`) -/

/-- One filesystem notification event: its wall-clock arrival time (in
seconds), whether it concerns a directory, and the final path component
(`Path(event.src_path).name`). -/
structure FsEvent where
  time : ℚ
  is_directory : Bool
  name : String
deriving Repr, DecidableEq

/-- The fixed tuple of ignored lock-file names in
`GitChangeHandler.on_any_event` (app.py line 37). -/
def lockNames : List String := ["index.lock", "HEAD.lock", ".git.lock"]

/-- An event `on_any_event` returns from without touching the debounce
timer: a directory event, or one whose name is in `lockNames`. -/
def ignoredEvent (e : FsEvent) : Bool :=
  e.is_directory || lockNames.contains e.name

/-- The timer manipulation of `GitChangeHandler.on_any_event` (app.py
lines 32-44) on the pending single-shot deadline: an ignored event
leaves it alone; any other event cancels the pending timer and starts a
fresh `threading.Timer(1.0, ...)`, i.e. sets the deadline to the event
time plus one second. -/
def on_any_event (pending : Option ℚ) (e : FsEvent) : Option ℚ :=
  if ignoredEvent e then pending else some (e.time + 1)

/-- The two effects of `GitChangeHandler._flag_needs_refresh` (app.py
lines 46-48), in order: set the repository's dirty flag, then post one
`refresh_list` request into the orchestrating context. -/
inductive WatcherAction where
  | setDirty
  | requestRefresh
deriving Repr, DecidableEq

/-- The actions emitted when the debounce timer fires at deadline `d`. -/
def fireActions (d : ℚ) : List (WatcherAction × ℚ) :=
  [(.setDirty, d), (.requestRefresh, d)]

/-- Run the change handler over a time-ordered event sequence, starting
from a pending deadline (if any).  A pending timer whose deadline
strictly precedes the next event's time fires before that event is
handled; after the last event, any pending timer fires.  Each emitted
action is stamped with the deadline at which it fired. -/
def handlerRun (pending : Option ℚ) : List FsEvent → List (WatcherAction × ℚ)
  | [] =>
    match pending with
    | some d => fireActions d
    | none => []
  | e :: rest =>
    match pending with
    | some d =>
      if d < e.time then
        fireActions d ++ handlerRun (on_any_event none e) rest
      else
        handlerRun (on_any_event (some d) e) rest
    | none => handlerRun (on_any_event none e) rest

/-- A burst of events following time `t`: each arrives strictly after the
previous one and strictly within one quiescence window (1 second) of it. -/
def burstFrom (t : ℚ) : List FsEvent → Prop
  | [] => True
  | e :: rest => t < e.time ∧ e.time < t + 1 ∧ burstFrom e.time rest

/-- The arrival time of the last event of a burst (`t` if none). -/
def lastTime (t : ℚ) : List FsEvent → ℚ
  | [] => t
  | e :: rest => lastTime e.time rest

/-- Spec-side account (for the amended claim C1) of how many times the
last-commit, branch and status probes invoke the error callback: exactly
once when the external command completed with a non-zero exit code, and
never otherwise — in particular not on the hard-errors arising from a
timeout or an internal exception. -/
def specSimpleProbeCallbackCount (proc : ProcOutcome) : Nat :=
  match proc with
  | .completed rc _ _ => if rc ≠ 0 then 1 else 0
  | .timeout => 0
  | .exc _ => 0

/-- Spec-side account (for the amended claim C1) of how many times the
ahead/behind probe invokes the error callback: never when the branch
step times out, raises, or returns empty (all soft-absence or silent);
once when the branch command exits non-zero (soft-absence, reported by
the inner branch probe); once on every later-step timeout, exception or
non-zero exit — including the soft-absence outcomes for a missing or
unverifiable upstream — and once on a malformed count token pair (the
`int()` failure); never on success, and never on the silent hard-error
where the count command exits zero with empty or non-two-token output. -/
def specAheadBehindCallbackCount (env : AheadBehindEnv) : Nat :=
  match env.branch with
  | .timeout => 0
  | .exc _ => 0
  | .completed rc out _ =>
    if rc ≠ 0 then 1
    else if pystrip out = "" then 0
    else
      match env.remote with
      | .timeout => 1
      | .exc _ => 1
      | .completed rr _ _ =>
        match env.merge with
        | .timeout => 1
        | .exc _ => 1
        | .completed mr _ _ =>
          if rr ≠ 0 ∨ mr ≠ 0 then 1
          else
            match env.verify with
            | .timeout => 1
            | .exc _ => 1
            | .completed vr _ _ =>
              if vr ≠ 0 then 1
              else
                match env.revlist with
                | .timeout => 1
                | .exc _ => 1
                | .completed lr lo _ =>
                  if lr = 0 ∧ pystrip lo ≠ "" then
                    match pysplit (pystrip lo) with
                    | [a, b] =>
                      match pyint a, pyint b with
                      | some _, some _ => 0
                      | _, _ => 1
                    | _ => 0
                  else if lr ≠ 0 then 1 else 0

/-! ## Theorems -/

/-- Every run of the ahead/behind probe ends in exactly one of three
result shapes: the soft-absence value, a success with both counts and
`has_upstream=True`, or the bare hard-error. -/
lemma gab_result_cases (name : String) (env : AheadBehindEnv) :
    (get_git_ahead_behind name env).1 = noUpstream ∨
    (∃ x y, (get_git_ahead_behind name env).1 = ⟨some ⟨some x, some y, some true⟩, false⟩) ∨
    (get_git_ahead_behind name env).1 = ⟨none, true⟩ := by
  unfold get_git_ahead_behind
  rcases env with ⟨eb, er, em, ev, el⟩
  dsimp only
  split
  · left; rfl
  · cases er with
    | timeout => right; right; rfl
    | exc m => right; right; rfl
    | completed rr ro re =>
      cases em with
      | timeout => right; right; rfl
      | exc m => right; right; rfl
      | completed mr mo me =>
        dsimp only
        by_cases h2 : rr ≠ 0 ∨ mr ≠ 0
        · rw [if_pos h2]; left; rfl
        · rw [if_neg h2]
          cases ev with
          | timeout => right; right; rfl
          | exc m => right; right; rfl
          | completed vr vo ve =>
            dsimp only
            by_cases h3 : vr ≠ 0
            · rw [if_pos h3]; left; rfl
            · rw [if_neg h3]
              cases el with
              | timeout => right; right; rfl
              | exc m => right; right; rfl
              | completed lr lo le =>
                dsimp only
                by_cases h4 : lr = 0 ∧ pystrip lo ≠ ""
                · rw [if_pos h4]
                  rcases hps : pysplit (pystrip lo) with _ | ⟨a, _ | ⟨b, _ | _⟩⟩
                  · right; right; rfl
                  · right; right; rfl
                  · dsimp only
                    cases ha : pyint a with
                    | none =>
                      cases hb : pyint b with
                      | none => right; right; simp [ha, hb]
                      | some y => right; right; simp [ha, hb]
                    | some x =>
                      cases hb : pyint b with
                      | none => right; right; simp [ha, hb]
                      | some y => right; left; exact ⟨x, y, by simp [ha, hb]⟩
                  · right; right; rfl
                · rw [if_neg h4]
                  by_cases h5 : lr ≠ 0
                  · rw [if_pos h5]; right; right; rfl
                  · rw [if_neg h5]; right; right; rfl

/-- Claim C3, counterexample: when `git log` exits zero with no output,
`get_last_commit_date` falls through its `if`/`elif` chain to
`return GitResult(value=None, has_error=False)` — soft-absence, not the
hard-error the claim asserts for that case. -/
theorem get_last_commit_date_zero_exit_empty_not_hard_error :
    (get_last_commit_date Nat pyNat "repo" (.completed 0 "" "")).1 =
      ⟨none, false⟩ := by
  decide

/-- Claim C3 (amended): the last-commit probe returns hard-error on
non-zero exit, on timeout, on an internal exception, and on unparsable
non-empty output; it returns soft-absence — not hard-error — on zero
exit with no output; and it returns success with the parsed timestamp
exactly on zero exit with non-empty parseable output. -/
theorem get_last_commit_date_outcomes (DT : Type) (p : String → Option DT)
    (name : String) (proc : ProcOutcome) :
    (∀ rc out err, proc = .completed rc out err →
      (rc ≠ 0 → (get_last_commit_date DT p name proc).1 = ⟨none, true⟩) ∧
      (rc = 0 → pystrip out = "" → (get_last_commit_date DT p name proc).1 = ⟨none, false⟩) ∧
      (rc = 0 → pystrip out ≠ "" → p (pystrip out) = none →
        (get_last_commit_date DT p name proc).1 = ⟨none, true⟩) ∧
      (rc = 0 → pystrip out ≠ "" → ∀ d, p (pystrip out) = some d →
        (get_last_commit_date DT p name proc).1 = ⟨some d, false⟩)) ∧
    (proc = .timeout → (get_last_commit_date DT p name proc).1 = ⟨none, true⟩) ∧
    (∀ m, proc = .exc m → (get_last_commit_date DT p name proc).1 = ⟨none, true⟩) := by
  refine ⟨?_, ?_, ?_⟩
  · rintro rc out err rfl
    unfold get_last_commit_date
    dsimp only
    refine ⟨?_, ?_, ?_, ?_⟩
    · intro hrc
      rw [if_neg (by simp [hrc]), if_pos hrc]
    · intro hrc htrim
      rw [if_neg (by simp [htrim]), if_neg (by simp [hrc])]
    · intro hrc htrim hp
      rw [if_pos ⟨hrc, htrim⟩, hp]
    · intro hrc htrim d hp
      rw [if_pos ⟨hrc, htrim⟩, hp]
  · rintro rfl; rfl
  · rintro m rfl; rfl

/-- Claim C3, witness for the amended theorem at concrete inputs: a
non-zero exit is hard-error and a parseable timestamp is success. -/
theorem get_last_commit_date_outcomes_witness :
    (get_last_commit_date Nat pyNat "repo" (.completed 1 "" "boom")).1 =
      ⟨none, true⟩ ∧
    (get_last_commit_date Nat pyNat "repo" (.completed 0 "17" "")).1 =
      ⟨some 17, false⟩ := by
  constructor
  · exact (((get_last_commit_date_outcomes Nat pyNat "repo"
      (.completed 1 "" "boom")).1 1 "" "boom" rfl).1 (by decide))
  · exact (((get_last_commit_date_outcomes Nat pyNat "repo"
      (.completed 0 "17" "")).1 0 "17" "" rfl).2.2.2 rfl (by decide) 17 (by decide))

/-- Claim C4: whenever the branch's remote-name or merge-target lookup
exits non-zero, or both succeed and the constructed upstream reference
fails to verify, the ahead/behind probe returns `has_error = False`
(soft-absence), never hard-error — whatever the branch step and the
count step did. -/
theorem get_git_ahead_behind_no_upstream_soft (name : String)
    (env : AheadBehindEnv) (rr : Int) (ro re : String) (mr : Int) (mo me : String)
    (hr : env.remote = .completed rr ro re)
    (hm : env.merge = .completed mr mo me)
    (h : rr ≠ 0 ∨ mr ≠ 0 ∨ ∃ vr vo ve, env.verify = .completed vr vo ve ∧ vr ≠ 0) :
    (get_git_ahead_behind name env).1.has_error = false := by
  unfold get_git_ahead_behind
  dsimp only
  split
  · rfl
  · rw [hr, hm]
    dsimp only
    by_cases h2 : rr ≠ 0 ∨ mr ≠ 0
    · rw [if_pos h2]; rfl
    · rw [if_neg h2]
      push_neg at h2
      rcases h with h | h | ⟨vr, vo, ve, hv, hvr⟩
      · exact absurd h (by simp [h2.1])
      · exact absurd h (by simp [h2.2])
      · rw [hv]
        dsimp only
        rw [if_pos hvr]
        rfl

/-- Claim C4, witness: with the remote lookup exiting 1, the probe
reports soft-absence. -/
theorem get_git_ahead_behind_no_upstream_soft_witness :
    (get_git_ahead_behind "repo"
      ⟨.completed 0 "main" "", .completed 1 "" "", .completed 0 "refs/heads/main" "",
        .timeout, .timeout⟩).1.has_error = false := by
  exact get_git_ahead_behind_no_upstream_soft "repo" _ 1 "" "" 0 "refs/heads/main" ""
    rfl rfl (Or.inl (by decide))

/-- Claim C9: whenever the ahead/behind probe reports no error, its value
is a present `AheadBehindInfo` whose `has_upstream` is a definite
boolean — and on every soft-absence outcome (no counts), including the
branch-unresolvable path, that boolean is `False`, never the unknown
`None` tri-state. -/
theorem get_git_ahead_behind_soft_absence_upstream_false (name : String)
    (env : AheadBehindEnv)
    (h : (get_git_ahead_behind name env).1.has_error = false) :
    (∃ info, (get_git_ahead_behind name env).1.value = some info) ∧
    ∀ info, (get_git_ahead_behind name env).1.value = some info →
      info.has_upstream ≠ none ∧ (info.ahead = none → info.has_upstream = some false) := by
  rcases gab_result_cases name env with hc | ⟨x, y, hc⟩ | hc
  · rw [hc]
    refine ⟨⟨⟨none, none, some false⟩, rfl⟩, ?_⟩
    intro info hi
    have : info = ⟨none, none, some false⟩ := by
      have := hi.symm
      simpa [noUpstream] using this
    subst this
    exact ⟨by simp, fun _ => rfl⟩
  · rw [hc]
    refine ⟨⟨⟨some x, some y, some true⟩, rfl⟩, ?_⟩
    intro info hi
    have : info = ⟨some x, some y, some true⟩ := by simpa using hi.symm
    subst this
    exact ⟨by simp, fun hx => by simp at hx⟩
  · rw [hc] at h
    simp at h

/-- Claim C9, witness: with an unresolvable branch (non-zero exit), the
soft-absence value carries `has_upstream = False`. -/
theorem get_git_ahead_behind_soft_absence_upstream_false_witness :
    ((get_git_ahead_behind "repo"
        ⟨.completed 1 "" "fatal", .timeout, .timeout, .timeout, .timeout⟩).1.value =
      some ⟨none, none, some false⟩) ∧
    (AheadBehindInfo.has_upstream ⟨none, none, some false⟩ = some false) := by
  refine ⟨by rfl, ?_⟩
  exact ((get_git_ahead_behind_soft_absence_upstream_false "repo"
    ⟨.completed 1 "" "fatal", .timeout, .timeout, .timeout, .timeout⟩ (by rfl)).2
    ⟨none, none, some false⟩ (by rfl)).2 rfl

/-- The branch probe's message count: one exactly when the command
completed with a non-zero exit code. -/
lemma get_git_branch_msg_count (name : String) (proc : ProcOutcome) :
    (get_git_branch name proc).2.length = specSimpleProbeCallbackCount proc := by
  cases proc with
  | timeout => rfl
  | exc m => rfl
  | completed rc out err =>
    dsimp only [get_git_branch, specSimpleProbeCallbackCount]
    by_cases h1 : rc = 0 ∧ pystrip out ≠ ""
    · rw [if_pos h1]; simp [h1.1]
    · rw [if_neg h1]
      by_cases h2 : rc ≠ 0
      · rw [if_pos h2, if_pos h2]; rfl
      · rw [if_neg h2, if_neg h2]; rfl

/-- Claim C1 (amended): for the last-commit, branch and status probes the
error callback is invoked exactly once when the command exits non-zero
and never otherwise (timeouts and internal exceptions yield hard-errors
with no callback); the ahead/behind probe invokes it at most once,
namely: never when its branch step timed out, raised, or came back
empty, once when the branch command exited non-zero (a soft-absence),
once on every later-step timeout, exception, non-zero exit (including
the soft-absence outcomes for a missing or unverifiable upstream) or
unparsable count token, and never on success or on the silent hard-error
where the count command exits zero with malformed output. -/
theorem probe_callback_counts (DT : Type) (p : String → Option DT)
    (name : String) (proc : ProcOutcome) (env : AheadBehindEnv) :
    (get_last_commit_date DT p name proc).2.length = specSimpleProbeCallbackCount proc ∧
    (get_git_branch name proc).2.length = specSimpleProbeCallbackCount proc ∧
    (get_git_status name proc).2.length = specSimpleProbeCallbackCount proc ∧
    (get_git_ahead_behind name env).2.length = specAheadBehindCallbackCount env := by
  refine ⟨?_, get_git_branch_msg_count name proc, ?_, ?_⟩
  · cases proc with
    | timeout => rfl
    | exc m => rfl
    | completed rc out err =>
      dsimp only [get_last_commit_date, specSimpleProbeCallbackCount]
      by_cases h1 : rc = 0 ∧ pystrip out ≠ ""
      · rw [if_pos h1]
        rcases hp : p (pystrip out) with _ | d <;> simp [h1.1]
      · rw [if_neg h1]
        by_cases h2 : rc ≠ 0
        · rw [if_pos h2, if_pos h2]; rfl
        · rw [if_neg h2, if_neg h2]; rfl
  · cases proc with
    | timeout => rfl
    | exc m => rfl
    | completed rc out err =>
      dsimp only [get_git_status, specSimpleProbeCallbackCount]
      by_cases h2 : rc ≠ 0
      · rw [if_neg (by simp [h2] : ¬rc = 0), if_pos h2]; rfl
      · rw [if_pos (by simpa using h2), if_neg h2]
        by_cases h3 : pystrip out = ""
        · rw [if_pos h3]; rfl
        · rw [if_neg h3]; rfl
  · rcases env with ⟨eb, er, em, ev, el⟩
    cases eb with
    | timeout => rfl
    | exc m => rfl
    | completed rc out err =>
      by_cases h1 : rc = 0 ∧ pystrip out ≠ ""
      · have hb : get_git_branch name (.completed rc out err) =
            (⟨some (pystrip out), false⟩, []) := by
          unfold get_git_branch; dsimp only; rw [if_pos h1]
        unfold get_git_ahead_behind specAheadBehindCallbackCount
        rw [hb]
        dsimp only
        rw [if_neg (by simp [h1.2]), if_neg (by simp [h1.1]), if_neg h1.2]
        cases er with
        | timeout => simp
        | exc m => simp
        | completed rr ro re =>
          dsimp only
          cases em with
          | timeout => simp
          | exc m => simp
          | completed mr mo me =>
            dsimp only
            by_cases h2 : rr ≠ 0 ∨ mr ≠ 0
            · simp [h2]
            · simp only [if_neg h2]
              cases ev with
              | timeout => simp
              | exc m => simp
              | completed vr vo ve =>
                dsimp only
                by_cases h3 : vr ≠ 0
                · simp [h3]
                · simp only [if_neg h3]
                  cases el with
                  | timeout => simp
                  | exc m => simp
                  | completed lr lo le =>
                    dsimp only
                    by_cases h4 : lr = 0 ∧ pystrip lo ≠ ""
                    · simp only [if_pos h4]
                      rcases hps : pysplit (pystrip lo) with _ | ⟨a, _ | ⟨b, _ | _⟩⟩
                      · simp
                      · simp
                      · dsimp only
                        rcases hpa : pyint a with _ | x <;>
                          rcases hpb : pyint b with _ | y <;>
                          simp [hpa, hpb]
                      · simp
                    · simp only [if_neg h4]
                      by_cases h5 : lr ≠ 0
                      · simp [h5]
                      · simp [h5]
      · by_cases h2 : rc ≠ 0
        · have hb : get_git_branch name (.completed rc out err) =
              (⟨none, true⟩, ["git rev-parse failed in " ++ name ++ ": " ++ pystrip err]) := by
            unfold get_git_branch; dsimp only; rw [if_neg h1, if_pos h2]
          unfold get_git_ahead_behind specAheadBehindCallbackCount
          rw [hb]
          dsimp only
          rw [if_pos (by simp), if_pos h2]
          rfl
        · have hrc : rc = 0 := not_not.mp h2
          have htr : pystrip out = "" := by
            by_contra hh; exact h1 ⟨hrc, hh⟩
          have hb : get_git_branch name (.completed rc out err) =
              (⟨none, false⟩, []) := by
            unfold get_git_branch; dsimp only; rw [if_neg h1, if_neg h2]
          unfold get_git_ahead_behind specAheadBehindCallbackCount
          rw [hb]
          dsimp only
          rw [if_pos (by simp), if_neg h2, if_pos htr]
          rfl

/-- Claim C1, counterexample: a timed-out last-commit probe is a
hard-error that never reaches the callback, and an ahead/behind probe
whose remote lookup exits non-zero is a soft-absence that invokes the
callback once — contradicting both halves of the claim. -/
theorem probe_callback_claim_counterexample :
    ((get_last_commit_date Nat pyNat "repo" .timeout).1.has_error = true ∧
      (get_last_commit_date Nat pyNat "repo" .timeout).2.length = 0) ∧
    ((get_git_ahead_behind "repo"
        ⟨.completed 0 "main" "", .completed 1 "" "", .completed 0 "" "",
          .timeout, .timeout⟩).1.has_error = false ∧
      (get_git_ahead_behind "repo"
        ⟨.completed 0 "main" "", .completed 1 "" "", .completed 0 "" "",
          .timeout, .timeout⟩).2.length = 1) := by
  refine ⟨⟨rfl, rfl⟩, ?_, ?_⟩ <;> decide

/-- Deserializing a serialized entry recovers it exactly, provided the
timestamp codec round-trips and never renders an empty string. -/
lemma loadEntry_serializeEntry (DT : Type) (isoformat : DT → String)
    (fromisoformat : String → Option DT)
    (hne : ∀ d, isoformat d ≠ "")
    (hrt : ∀ d, fromisoformat (isoformat d) = some d)
    (e : CacheEntry DT) :
    loadEntry DT fromisoformat (serializeEntry DT isoformat e) = some e := by
  rcases e with ⟨b, s, a, bh, hu, lc⟩
  cases lc with
  | none => rfl
  | some d =>
    dsimp only [serializeEntry, loadEntry]
    rw [if_neg (hne d), hrt d]

/-- Claim C5: saving a metadata cache and reloading it reproduces every
entry exactly — all six values (branch, status, ahead, behind,
has_upstream, last_commit), present or absent — under each repository's
path, given that the external `datetime` ISO codec round-trips
(`fromisoformat(d.isoformat()) == d`) and `isoformat` is never empty. -/
theorem metadata_cache_round_trip (DT : Type) (isoformat : DT → String)
    (fromisoformat : String → Option DT)
    (hne : ∀ d, isoformat d ≠ "")
    (hrt : ∀ d, fromisoformat (isoformat d) = some d)
    (cache : List (String × CacheEntry DT)) :
    load_metadata_cache DT fromisoformat (save_metadata_cache DT isoformat cache) =
      cache := by
  have h : loadEntries DT fromisoformat (save_metadata_cache DT isoformat cache) =
      some cache := by
    induction cache with
    | nil => rfl
    | cons kv rest ih =>
      dsimp only [save_metadata_cache, List.map_cons] at ih ⊢
      dsimp only [loadEntries]
      rw [loadEntry_serializeEntry DT isoformat fromisoformat hne hrt kv.2, ih]
  unfold load_metadata_cache
  rw [h]

/-- Claim C5, witness: a concrete two-entry cache — one entry with every
field present, one with every field absent — survives the round trip. -/
theorem metadata_cache_round_trip_witness :
    load_metadata_cache Unit (fun _ => some ())
      (save_metadata_cache Unit (fun _ => "t")
        [("/r/a", ⟨some "main", some "clean", some 2, some 1, some true, some ()⟩),
         ("/r/b", ⟨none, none, none, none, none, none⟩)]) =
      [("/r/a", ⟨some "main", some "clean", some 2, some 1, some true, some ()⟩),
       ("/r/b", ⟨none, none, none, none, none, none⟩)] :=
  metadata_cache_round_trip Unit (fun _ => "t") (fun _ => some ())
    (fun _ => show ("t" : String) ≠ "" by decide) (fun _ => rfl) _

/-- Claim C6: every cache save hands the fully serialized document to the
atomic writer, which stages it in the sibling temporary file and only
ever changes the destination via the final rename — so at every point of
every run (failing or not) the destination holds the old document or the
complete new one; a failing run re-raises after deleting the temporary
file and leaves the destination untouched; a successful run installs the
new document; the call raises exactly when some step failed. -/
theorem cache_save_atomic_and_propagates (DT : Type) (isoformat : DT → String)
    (cache : List (String × CacheEntry DT))
    (fs : FileSystem (List (String × SerializedEntry))) (fp : FailPoint) :
    (∀ s ∈ (atomic_write_json (List (String × SerializedEntry)) fs
        (save_metadata_cache DT isoformat cache) fp).1,
      s.dest = fs.dest ∨ s.dest = some (save_metadata_cache DT isoformat cache)) ∧
    ((atomic_write_json (List (String × SerializedEntry)) fs
        (save_metadata_cache DT isoformat cache) fp).2.2 = true ↔ fp ≠ .noFail) ∧
    ((atomic_write_json (List (String × SerializedEntry)) fs
        (save_metadata_cache DT isoformat cache) fp).2.2 = true →
      (atomic_write_json (List (String × SerializedEntry)) fs
        (save_metadata_cache DT isoformat cache) fp).2.1 =
        { dest := fs.dest, temp := none }) ∧
    ((atomic_write_json (List (String × SerializedEntry)) fs
        (save_metadata_cache DT isoformat cache) fp).2.2 = false →
      (atomic_write_json (List (String × SerializedEntry)) fs
        (save_metadata_cache DT isoformat cache) fp).2.1 =
        { dest := some (save_metadata_cache DT isoformat cache), temp := none }) := by
  cases fp <;> simp [atomic_write_json, cleanupTemp]

/-- Claim C6, witness: a failure at the fsync step raises and leaves the
old destination document in place with the temporary file removed. -/
theorem cache_save_atomic_and_propagates_witness :
    (atomic_write_json (List (String × SerializedEntry))
        ⟨some [], none⟩
        (save_metadata_cache Unit (fun _ => "t")
          [("/r/a", ⟨none, none, none, none, none, none⟩)])
        .atSync).2.1 = { dest := some [], temp := none } ∧
    (atomic_write_json (List (String × SerializedEntry))
        ⟨some [], none⟩
        (save_metadata_cache Unit (fun _ => "t")
          [("/r/a", ⟨none, none, none, none, none, none⟩)])
        .atSync).2.2 = true := by
  have h := cache_save_atomic_and_propagates Unit (fun _ => "t")
    [("/r/a", ⟨none, none, none, none, none, none⟩)] ⟨some [], none⟩ .atSync
  have hr := h.2.1.mpr (by decide)
  exact ⟨h.2.2.1 hr, hr⟩

/-- Claim C7: the scanner returns exactly the immediate children whose
`.git` marker is itself a directory, in listing order, each seeded from
the caches; every other child — not a directory, no marker, a plain-file
marker, or a per-entry permission failure — is skipped without affecting
the rest; a missing base directory or an immediate listing failure
yields the empty list. -/
theorem find_git_repos_spec (DT : Type) (access_history : String → Option DT)
    (metadata_cache : String → Option (CacheEntry DT)) (l : List DirEntry) :
    find_git_repos DT (.entries l) access_history metadata_cache =
      (l.filter (fun e => e.status == .gitDir)).map
        (seedRepo DT access_history metadata_cache) ∧
    find_git_repos DT .missing access_history metadata_cache = [] ∧
    find_git_repos DT (.failsAfter []) access_history metadata_cache = [] := by
  refine ⟨?_, rfl, rfl⟩
  induction l with
  | nil => rfl
  | cons e t ih =>
    dsimp only [find_git_repos] at ih ⊢
    cases hs : e.status <;>
      simp [scanEntry, hs, ih, List.filter_cons, List.filterMap_cons]

/-- Claim C2, counterexample: a single-repository targeted refresh whose
bundle raised an unexpected fault still comes back with the dirty flag
cleared — `refresh_repos_metadata` clears `needs_refresh` for every
repository of the subset after the gather, unconditionally. -/
theorem refresh_fault_still_clears_dirty :
    (refresh_repos_metadata Unit
      [({ path := "/r/a", name := "a", needs_refresh := true }, .fault)] []).1 =
      [{ path := "/r/a", name := "a", needs_refresh := false }] := by
  rfl

/-- Claim C2 (amended): the targeted refresh clears the dirty flag of
every repository in the requested subset once the batch's gather
completes, unconditionally — `asyncio.gather(..., return_exceptions=True)`
collects a faulted bundle instead of re-raising it, so a repository
whose own bundle raised has its flag cleared too and is not retried. -/
theorem refresh_repos_metadata_clears_all (DT : Type)
    (repos : List (Repository DT × BundleOutcome DT))
    (cache : List (String × CacheEntry DT)) :
    ∀ r ∈ (refresh_repos_metadata DT repos cache).1, r.needs_refresh = false := by
  intro r hr
  unfold refresh_repos_metadata at hr
  dsimp only at hr
  rw [List.mem_map] at hr
  obtain ⟨x, _, rfl⟩ := hr
  rfl

/-- Claim C2, witness: the cleared repository extracted from the faulted
single-repository refresh. -/
theorem refresh_repos_metadata_clears_all_witness :
    Repository.needs_refresh
      (((refresh_repos_metadata Unit
          [({ path := "/r/a", name := "a", needs_refresh := true }, .fault)] []).1).getD 0
        { path := "x", name := "x", needs_refresh := true }) = false :=
  refresh_repos_metadata_clears_all Unit
    [({ path := "/r/a", name := "a", needs_refresh := true }, .fault)] [] _ (by decide)

/-- Reading back the key just inserted by Python dict assignment yields
the inserted value. -/
lemma dictGet_dictInsert_self (α : Type) (l : List (String × α)) (k : String)
    (v : α) : dictGet α (dictInsert α l k v) k = some v := by
  unfold dictInsert
  by_cases h : l.any (fun kv => kv.1 == k) = true
  · rw [if_pos h]
    induction l with
    | nil => simp at h
    | cons hd t ih =>
      rw [List.map_cons]
      by_cases hh : hd.1 == k
      · rw [if_pos hh]
        unfold dictGet
        rw [List.find?_cons_of_pos _ (by simp)]
        rfl
      · rw [if_neg hh]
        have ht : t.any (fun kv => kv.1 == k) = true := by
          simp only [List.any_cons, hh, Bool.false_or] at h
          exact h
        unfold dictGet
        rw [List.find?_cons_of_neg _ (by simpa using hh)]
        exact ih ht
  · rw [if_neg h]
    induction l with
    | nil =>
      unfold dictGet
      rw [List.nil_append, List.find?_cons_of_pos _ (by simp)]
      rfl
    | cons hd t ih =>
      have hh : (hd.1 == k) = false := by
        by_cases hc : (hd.1 == k) = true
        · exact absurd (by simp [List.any_cons, hc]) h
        · exact Bool.eq_false_iff.mpr hc
      rw [List.cons_append]
      unfold dictGet
      rw [List.find?_cons_of_neg _ (by simp [hh])]
      have ht : ¬t.any (fun kv => kv.1 == k) = true := by
        intro hc
        exact h (by simp [List.any_cons, hc])
      exact ih ht

/-- Claim C10: `fetch_repo_metadata` overwrites every metadata field with
the fresh bundle's value, independent of what the repository held before
(so a hard-erroring probe, whose result value is `None`, resets its
field(s) to `None` — for an ahead/behind hard-error all of ahead, behind
and has_upstream become `None`), and `save_repo_to_cache` then stores
exactly those field values in the metadata cache under the repository's
path. -/
theorem fetch_overwrites_and_cache_persists (DT : Type)
    (repo old : Repository DT) (b : ProbeBundle DT)
    (cache : List (String × CacheEntry DT)) :
    (fetch_repo_metadata DT repo b).last_commit = b.commit.value ∧
    (fetch_repo_metadata DT repo b).branch = b.branch.value ∧
    (fetch_repo_metadata DT repo b).status = b.status.value ∧
    ((fetch_repo_metadata DT repo b).ahead = (fetch_repo_metadata DT old b).ahead ∧
      (fetch_repo_metadata DT repo b).behind = (fetch_repo_metadata DT old b).behind ∧
      (fetch_repo_metadata DT repo b).has_upstream =
        (fetch_repo_metadata DT old b).has_upstream) ∧
    (b.aheadBehind.value = none →
      (fetch_repo_metadata DT repo b).ahead = none ∧
      (fetch_repo_metadata DT repo b).behind = none ∧
      (fetch_repo_metadata DT repo b).has_upstream = none) ∧
    dictGet (CacheEntry DT)
        (save_repo_to_cache DT cache (fetch_repo_metadata DT repo b))
        (fetch_repo_metadata DT repo b).path =
      some { branch := b.branch.value, status := b.status.value,
             ahead := (fetch_repo_metadata DT repo b).ahead,
             behind := (fetch_repo_metadata DT repo b).behind,
             has_upstream := (fetch_repo_metadata DT repo b).has_upstream,
             last_commit := b.commit.value } := by
  refine ⟨rfl, rfl, rfl, ⟨rfl, rfl, rfl⟩, ?_, ?_⟩
  · intro hab
    unfold fetch_repo_metadata
    rw [hab]
    exact ⟨rfl, rfl, rfl⟩
  · unfold save_repo_to_cache
    exact dictGet_dictInsert_self (CacheEntry DT) cache
      (fetch_repo_metadata DT repo b).path _

/-- Claim C10, witness: a previously populated repository put through an
all-hard-error bundle ends with `None` in every metadata field, and the
cache entry written for it records those `None`s. -/
theorem fetch_overwrites_and_cache_persists_witness :
    (fetch_repo_metadata Unit
        { path := "/r/a", name := "a", last_commit := some (), branch := some "main",
          status := some "clean", ahead := some 2, behind := some 1,
          has_upstream := some true }
        { commit := ⟨none, true⟩, branch := ⟨none, true⟩, status := ⟨none, true⟩,
          aheadBehind := ⟨none, true⟩ }).ahead = none ∧
    dictGet (CacheEntry Unit)
        (save_repo_to_cache Unit
          [("/r/a", ⟨some "main", some "clean", some 2, some 1, some true, some ()⟩)]
          (fetch_repo_metadata Unit
            { path := "/r/a", name := "a", last_commit := some (), branch := some "main",
              status := some "clean", ahead := some 2, behind := some 1,
              has_upstream := some true }
            { commit := ⟨none, true⟩, branch := ⟨none, true⟩, status := ⟨none, true⟩,
              aheadBehind := ⟨none, true⟩ }))
        "/r/a" =
      some ⟨none, none, none, none, none, none⟩ := by
  have h := fetch_overwrites_and_cache_persists Unit
    { path := "/r/a", name := "a", last_commit := some (), branch := some "main",
      status := some "clean", ahead := some 2, behind := some 1,
      has_upstream := some true }
    { path := "/r/a", name := "a" }
    { commit := ⟨none, true⟩, branch := ⟨none, true⟩, status := ⟨none, true⟩,
      aheadBehind := ⟨none, true⟩ }
    [("/r/a", ⟨some "main", some "clean", some 2, some 1, some true, some ()⟩)]
  refine ⟨(h.2.2.2.2.1 rfl).1, ?_⟩
  have hc := h.2.2.2.2.2
  rw [(h.2.2.2.2.1 rfl).1, (h.2.2.2.2.1 rfl).2.1, (h.2.2.2.2.1 rfl).2.2] at hc
  exact hc

/-- Running the handler from a pending deadline `t + 1` over a qualifying
burst that starts after `t` and stays within the quiescence window keeps
postponing the timer, which finally fires one second after the burst's
last event. -/
lemma handlerRun_pending_burst (rest : List FsEvent) : ∀ t : ℚ,
    (∀ e ∈ rest, ignoredEvent e = false) → burstFrom t rest →
    handlerRun (some (t + 1)) rest = fireActions (lastTime t rest + 1) := by
  induction rest with
  | nil => intro t _ _; rfl
  | cons e r ih =>
    intro t hq hb
    obtain ⟨h1, h2, h3⟩ := hb
    dsimp only [handlerRun]
    rw [if_neg (not_lt.mpr (le_of_lt h2))]
    have he : ignoredEvent e = false := hq e (List.mem_cons_self e r)
    rw [show on_any_event (some (t + 1)) e = some (e.time + 1) by
      unfold on_any_event; rw [he]; rfl]
    exact ih e.time (fun x hx => hq x (List.mem_cons_of_mem e hx)) h3

/-- Claim C8: (1) an event naming one of the known lock files (or a
directory event) is ignored outright — with time-ordered events it
leaves the handler's behaviour on the remaining events unchanged; (2) a
burst of N ≥ 1 qualifying events, each within one second of its
predecessor, keeps restarting the single one-second single-shot timer,
which fires exactly once — one second after the last event — emitting
exactly one dirty signal followed by exactly one refresh request. -/
theorem debounce_collapse :
    (∀ (pending : Option ℚ) (e : FsEvent) (rest : List FsEvent),
      ignoredEvent e = true →
      List.Chain' (fun a b => a.time < b.time) (e :: rest) →
      handlerRun pending (e :: rest) = handlerRun pending rest) ∧
    (∀ (e : FsEvent) (evs : List FsEvent),
      ignoredEvent e = false →
      (∀ x ∈ evs, ignoredEvent x = false) → burstFrom e.time evs →
      handlerRun none (e :: evs) = fireActions (lastTime e.time evs + 1)) := by
  constructor
  · intro pending e rest hig hch
    cases pending with
    | none =>
      dsimp only [handlerRun]
      rw [show on_any_event none e = none by unfold on_any_event; rw [hig]; rfl]
    | some d =>
      dsimp only [handlerRun]
      by_cases hlt : d < e.time
      · rw [if_pos hlt]
        rw [show on_any_event none e = none by unfold on_any_event; rw [hig]; rfl]
        cases rest with
        | nil => dsimp only [handlerRun]; rw [List.append_nil]
        | cons e' r' =>
          have hlt' : d < e'.time :=
            lt_trans hlt (List.chain'_cons.mp hch).1
          dsimp only [handlerRun]
          rw [if_pos hlt']
      · rw [if_neg hlt]
        rw [show on_any_event (some d) e = some d by
          unfold on_any_event; rw [hig]; rfl]
  · intro e evs hie hq hb
    dsimp only [handlerRun]
    rw [show on_any_event none e = some (e.time + 1) by
      unfold on_any_event; rw [hie]; rfl]
    exact handlerRun_pending_burst evs e.time hq hb

/-- Claim C8, witness: a lock-file event is dropped, and two qualifying
events half a second apart yield exactly one dirty signal and one
refresh request, timed one second after the second event. -/
theorem debounce_collapse_witness :
    handlerRun none [⟨0, false, "index.lock"⟩] = handlerRun none [] ∧
    handlerRun none [⟨0, false, "HEAD"⟩, ⟨1/2, false, "index"⟩] =
      [(WatcherAction.setDirty, 1/2 + 1), (WatcherAction.requestRefresh, 1/2 + 1)] := by
  constructor
  · exact debounce_collapse.1 none ⟨0, false, "index.lock"⟩ [] (by decide)
      (List.chain'_singleton _)
  · exact debounce_collapse.2 ⟨0, false, "HEAD"⟩ [⟨1/2, false, "index"⟩]
      (by decide) (by intro x hx; rcases List.mem_singleton.mp hx with rfl; decide)
      (by refine ⟨?_, ?_, trivial⟩ <;> norm_num)

end LazyManager
